import Mathlib

/-
  Shallow embedding of the job-queue / pipeline-worker core of the
  av1converter repository.

  Conventions of the embedding:
  * Rust f32 / f64 values (progress percentages, VMAF scores, durations in
    seconds) are modelled as rationals.
  * Rust u64 sizes are modelled as naturals (saturating_sub on u64 is
    exactly truncated subtraction on naturals for in-range values).
  * Filesystem state is a finite set of paths; std::fs::remove_file
    succeeds exactly when the path is present.
  * External processes (ffmpeg, ab-av1, the VMAF verifier) are oracles:
    their observable outcomes are inputs to the embedded functions.
  * Instant / Duration arithmetic is modelled with an explicit rational
    time parameter; Duration values are clamped at zero, matching the
    saturating behaviour of Instant subtraction.
-/

namespace Av1Converter

/-! ## src/queue/job.rs -/

/-- Status of a job in the encoding queue (JobStatus in src/queue/job.rs). -/
inductive JobStatus where
  | Pending
  | Analyzing
  | AwaitingConfig
  | Ready
  | Encoding (progress : ℚ)
  | Done
  | DoneWithVmaf (score : ℚ)
  | Skipped (reason : String)
  | Error (message : String)
  | QualityWarning (vmaf : ℚ) (threshold : ℚ)
deriving DecidableEq

/-- An encoding job in the queue (EncodingJob in src/queue/job.rs).
Metadata and track fields are omitted: none of the embedded operations
read them. -/
structure EncodingJob where
  path : String
  status : JobStatus
  output_path : Option String
  crf : Option Nat
  source_size : Option Nat
  output_size : Option Nat
  source_deleted : Bool
  source_kept_vmaf : Option ℚ
deriving DecidableEq

/-- EncodingJob::size_reduction. Mirrors the Rust match: both sizes known
and source strictly positive, with saturating subtraction. -/
def size_reduction (j : EncodingJob) : Option (Nat × ℚ) :=
  match j.source_size, j.output_size with
  | some source, some output =>
      if 0 < source then
        let saved := source - output
        some (saved, ((saved : ℚ) / (source : ℚ)) * 100)
      else
        none
  | _, _ => none

/-! ## src/queue/state.rs -/

/-- Overall queue state (QueueState in src/queue/state.rs). Start and end
times are rational timestamps. -/
structure QueueState where
  jobs : List EncodingJob
  current_job_index : Nat
  config_job_index : Nat
  start_time : Option ℚ
  end_time : Option ℚ
  total_jobs_to_encode : Nat
  converted_count : Nat
  skipped_count : Nat
  error_count : Nat
  encoding_progress_done : Nat

/-- QueueState::elapsed_time, with the current clock passed explicitly.
Durations saturate at zero. -/
def elapsed_time (s : QueueState) (now : ℚ) : Option ℚ :=
  s.start_time.map fun start =>
    match s.end_time with
    | some e => max (e - start) 0
    | none => max (now - start) 0

/-- The filter predicate of the completed count in
QueueState::overall_progress: Done, DoneWithVmaf or QualityWarning. -/
def isCompletedDone : JobStatus → Bool
  | .Done => true
  | .DoneWithVmaf _ => true
  | .QualityWarning _ _ => true
  | _ => false

/-- The completed-job count used by QueueState::overall_progress. -/
def completedCount (s : QueueState) : Nat :=
  (s.jobs.filter fun j => isCompletedDone j.status).length

/-- The current-job progress term of QueueState::overall_progress: the
encoding progress of the job at current_job_index, defaulting to 0. -/
def currentJobProgress (s : QueueState) : ℚ :=
  ((s.jobs.get? s.current_job_index).bind fun j =>
      match j.status with
      | .Encoding progress => some progress
      | _ => none).getD 0

/-- QueueState::overall_progress. -/
def overall_progress (s : QueueState) : ℚ :=
  if s.total_jobs_to_encode = 0 then 0
  else
    min (((completedCount s : ℚ) * 100 + currentJobProgress s)
          / (s.total_jobs_to_encode : ℚ)) 100

/-- QueueState::estimated_time_remaining, with the current clock passed
explicitly (it feeds elapsed_time). -/
def estimated_time_remaining (s : QueueState) (now : ℚ) : Option ℚ :=
  let progress := overall_progress s
  if progress ≤ 0 ∨ 100 ≤ progress then none
  else
    match elapsed_time s now with
    | none => none
    | some elapsed =>
        let total_estimated := elapsed / (progress / 100)
        let remaining := total_estimated - elapsed
        if 0 < remaining then some remaining else none

/-- The terminal-status predicate of QueueState::all_completed. -/
def isTerminalStatus : JobStatus → Bool
  | .Done => true
  | .DoneWithVmaf _ => true
  | .Skipped _ => true
  | .Error _ => true
  | .QualityWarning _ _ => true
  | _ => false

/-- QueueState::all_completed. -/
def all_completed (s : QueueState) : Bool :=
  s.jobs.all fun j => isTerminalStatus j.status

/-! ## src/verifier/vmaf.rs -/

/-- VMAF quality result (VmafResult in src/verifier/vmaf.rs). -/
structure VmafResult where
  score : ℚ
  min_score : ℚ
  max_score : ℚ
deriving DecidableEq

/-- VmafResult::meets_threshold. -/
def meets_threshold (v : VmafResult) (threshold : ℚ) : Bool :=
  threshold ≤ v.score

/-! ## src/encoder/ffmpeg.rs -/

/-- Encoding result of the external ffmpeg run (EncodeResult in
src/encoder/ffmpeg.rs). -/
inductive EncodeResult where
  | Success
  | Cancelled
  | Error (message : String)
deriving DecidableEq

/-- Observation of the child process by try_wait in one iteration of
run_encode_loop: still running, exited with a success flag, or the wait
call itself failed. -/
inductive ChildObs where
  | running
  | exited (success : Bool)
  | waitFailed (message : String)
deriving DecidableEq

/-- Everything run_encode_loop observes from the outside world in one
iteration: the cancel flag, the latest positive out_time_us value parsed
from the progress file (if any), and the child-process status. -/
structure EncodeIter where
  cancelObserved : Bool
  progressTimeUs : Option ℚ
  child : ChildObs
deriving DecidableEq

/-- One iteration of the progress-reading block of run_encode_loop: when a
positive out_time_us was parsed and the duration is positive, the callback
fires with (time_secs / duration * 100).min(100); the accumulator records
the callback invocations. -/
def accStep (it : EncodeIter) (duration : ℚ) (acc : List ℚ) : List ℚ :=
  match it.progressTimeUs with
  | some time_us =>
      if 0 < duration then acc ++ [min (time_us / 1000000 / duration * 100) 100]
      else acc
  | none => acc

/-- The progress-callback invocations accumulated over a run of
iterations none of which terminates the loop. -/
def loopAcc : List EncodeIter → ℚ → List ℚ → List ℚ
  | [], _, acc => acc
  | it :: rest, duration, acc => loopAcc rest duration (accStep it duration acc)

/-- run_encode_loop in src/encoder/ffmpeg.rs, over a finite list of
iteration observations. Returns none when the observations run out before
the loop terminates. On cancellation the child is killed and the output
file removed; on a failing exit the output file is removed as well. The
returned list is the sequence of progress-callback invocations. -/
def run_encode_loop (iters : List EncodeIter) (duration : ℚ) (output : String)
    (fs : Finset String) (acc : List ℚ) :
    Option (EncodeResult × Finset String × List ℚ) :=
  match iters with
  | [] => none
  | it :: rest =>
      if it.cancelObserved then
        some (.Cancelled, fs.erase output, acc)
      else
        let acc2 := accStep it duration acc
        match it.child with
        | .exited true => some (.Success, fs, acc2)
        | .exited false =>
            some (.Error "ffmpeg failed", fs.erase output, acc2)
        | .waitFailed e =>
            some (.Error ("Failed to check ffmpeg status: " ++ e), fs, acc2)
        | .running => run_encode_loop rest duration output fs acc2

/-! ## src/encoder/mod.rs -/

/-- Full encoding result including VMAF (FullEncodeResult in
src/encoder/mod.rs). -/
inductive FullEncodeResult where
  | Success
  | SuccessWithVmaf (vmaf : VmafResult)
  | Cancelled
  | Error (message : String)
  | QualityWarning (vmaf : VmafResult) (threshold : ℚ)
deriving DecidableEq

/-- Result of the ab-av1 CRF search (CrfSearchResult in
src/encoder/ab_av1.rs). -/
structure CrfSearchResult where
  crf : Nat
  predicted_vmaf : ℚ
deriving DecidableEq

/-- The quality knobs of AppConfig that run_encoding_pipeline reads. -/
structure QualityConfig where
  vmaf_enabled : Bool
  vmaf_threshold : ℚ
deriving DecidableEq

/-- External-world observations of one run of run_encoding_pipeline:
whether ab-av1 is available, the outcome of the CRF search, the value of
the cancel flag loaded after a search failure, the outcome of the encode
stage, and the outcome of the VMAF verification. -/
structure PipelineEnv where
  ab_av1_available : Bool
  search : Except String CrfSearchResult
  cancelAfterSearch : Bool
  encodeOutcome : EncodeResult
  verifyOutcome : Except String VmafResult

/-- run_vmaf_check in src/encoder/mod.rs: no threshold means a plain
Success; a verification failure is absorbed into a plain Success; a score
below the threshold yields QualityWarning, otherwise SuccessWithVmaf. -/
def run_vmaf_check (threshold : Option ℚ) (verify : Except String VmafResult) :
    FullEncodeResult :=
  match threshold with
  | none => .Success
  | some t =>
      match verify with
      | .ok vmaf =>
          if ¬ meets_threshold vmaf t then .QualityWarning vmaf t
          else .SuccessWithVmaf vmaf
      | .error _ => .Success

/-- run_encoding_pipeline in src/encoder/mod.rs: CRF search (failures
absorbed unless the cancel flag is set), then encode, then verify. The
discovered CRF override only feeds the encoder arguments, which are
outside this embedding. -/
def run_encoding_pipeline (config : QualityConfig) (env : PipelineEnv) :
    FullEncodeResult :=
  let step1 : Except Unit (Option Nat) :=
    if env.ab_av1_available then
      match env.search with
      | .ok result => .ok (some result.crf)
      | .error _ => if env.cancelAfterSearch then .error () else .ok none
    else .ok none
  match step1 with
  | .error _ => .Cancelled
  | .ok _crf_override =>
      match env.encodeOutcome with
      | .Success =>
          run_vmaf_check
            (if config.vmaf_enabled then some config.vmaf_threshold else none)
            env.verifyOutcome
      | .Cancelled => .Cancelled
      | .Error e => .Error e

/-! ## src/queue/worker.rs -/

/-- Messages sent from the worker thread to the main thread
(WorkerMessage in src/queue/worker.rs). The Cancelled variant carries no
payload, exactly as in the source. -/
inductive WorkerMessage where
  | Progress (index : Nat) (value : ℚ)
  | Done (index : Nat)
  | DoneWithVmaf (index : Nat) (score : ℚ)
  | Error (index : Nat) (message : String)
  | QualityWarning (index : Nat) (score : ℚ) (threshold : ℚ)
  | Cancelled
  | SourceDeleted (index : Nat)
  | SourceKeptLowVmaf (index : Nat) (score : ℚ)
deriving DecidableEq

/-- Data needed by the worker thread for one job (WorkerJob in
src/queue/worker.rs). Metadata and tracks are only forwarded to the
pipeline, whose outcome is an oracle here. -/
structure WorkerJob where
  index : Nat
  input : String
  output : String
  delete_source : Bool
deriving DecidableEq

/-- External-world observations for one iteration of the worker loop: the
cancel flag loaded before the job starts, the pipeline outcome, and the
progress values the pipeline pushed through its callback. -/
structure JobEnv where
  cancelBefore : Bool
  result : FullEncodeResult
  progressEvents : List ℚ
deriving DecidableEq

/-- The fixed deletion safety threshold DELETE_VMAF_THRESHOLD in
src/queue/worker.rs. -/
def DELETE_VMAF_THRESHOLD : ℚ := 90

/-- try_delete_source in src/queue/worker.rs: at or above the threshold
the file is removed (an Error message is sent if removal fails, which in
this embedding happens exactly when the path is absent); below the
threshold the file is kept and SourceKeptLowVmaf is sent. Returns the
messages sent and the filesystem afterwards. -/
def try_delete_source (index : Nat) (source : String) (vmaf_score : ℚ)
    (fs : Finset String) : List WorkerMessage × Finset String :=
  if DELETE_VMAF_THRESHOLD ≤ vmaf_score then
    if source ∈ fs then
      ([.SourceDeleted index], fs.erase source)
    else
      ([.Error index ("Failed to delete source: " ++ source)], fs)
  else
    ([.SourceKeptLowVmaf index vmaf_score], fs)

/-- The per-job body of the worker loop in run_worker (lines 55-100 of
src/queue/worker.rs): the initial Progress 0 message, the progress
messages re-emitted from the pipeline callback, then the dispatch on the
pipeline outcome with the terminal message and the optional deletion
step. Returns the messages sent and the filesystem afterwards. -/
def processJob (job : WorkerJob) (env : JobEnv) (fs : Finset String) :
    List WorkerMessage × Finset String :=
  let progressMsgs :=
    WorkerMessage.Progress job.index 0
      :: env.progressEvents.map (WorkerMessage.Progress job.index)
  match env.result with
  | .Success => (progressMsgs ++ [.Done job.index], fs)
  | .SuccessWithVmaf vmaf =>
      if job.delete_source then
        let d := try_delete_source job.index job.input vmaf.score fs
        (progressMsgs ++ WorkerMessage.DoneWithVmaf job.index vmaf.score :: d.1, d.2)
      else
        (progressMsgs ++ [.DoneWithVmaf job.index vmaf.score], fs)
  | .Cancelled => (progressMsgs ++ [.Cancelled], fs)
  | .Error e => (progressMsgs ++ [.Error job.index e], fs)
  | .QualityWarning vmaf threshold =>
      if job.delete_source then
        let d := try_delete_source job.index job.input vmaf.score fs
        (progressMsgs
           ++ WorkerMessage.QualityWarning job.index vmaf.score threshold :: d.1,
         d.2)
      else
        (progressMsgs ++ [.QualityWarning job.index vmaf.score threshold], fs)

/-- run_worker in src/queue/worker.rs: iterate the jobs, each paired with
its external-world observations; stop with a bare Cancelled message when
the cancel flag is observed before a job, and break after a Cancelled
pipeline outcome. Returns the messages sent and the filesystem
afterwards. -/
def run_worker : List (WorkerJob × JobEnv) → Finset String →
    List WorkerMessage × Finset String
  | [], fs => ([], fs)
  | (job, env) :: rest, fs =>
      if env.cancelBefore then ([.Cancelled], fs)
      else
        let step := processJob job env fs
        match env.result with
        | .Cancelled => step
        | _ =>
            let tail := run_worker rest step.2
            (step.1 ++ tail.1, tail.2)

/-- The job index carried by a worker message, if any: every variant
except Cancelled carries one. -/
def messageIndex : WorkerMessage → Option Nat
  | .Progress i _ => some i
  | .Done i => some i
  | .DoneWithVmaf i _ => some i
  | .Error i _ => some i
  | .QualityWarning i _ _ => some i
  | .Cancelled => none
  | .SourceDeleted i => some i
  | .SourceKeptLowVmaf i _ => some i

/-- Whether a worker message reports stage progress or a terminal
outcome, as opposed to an out-of-band deletion notification. -/
def reportsStageProgressOrOutcome : WorkerMessage → Bool
  | .Progress _ _ => true
  | .Done _ => true
  | .DoneWithVmaf _ _ => true
  | .Error _ _ => true
  | .QualityWarning _ _ _ => true
  | .Cancelled => true
  | .SourceDeleted _ => false
  | .SourceKeptLowVmaf _ _ => false

/-- Whether a worker message is one of the terminal-outcome variants. -/
def isTerminalVariant : WorkerMessage → Bool
  | .Done _ => true
  | .DoneWithVmaf _ _ => true
  | .Error _ _ => true
  | .QualityWarning _ _ _ => true
  | .Cancelled => true
  | _ => false

/-- Whether a worker message is an out-of-band deletion notification. -/
def isNotification : WorkerMessage → Bool
  | .SourceDeleted _ => true
  | .SourceKeptLowVmaf _ _ => true
  | _ => false

/-- QueueState::new in src/queue/state.rs. -/
def QueueState.new : QueueState :=
  { jobs := []
    current_job_index := 0
    config_job_index := 0
    start_time := none
    end_time := none
    total_jobs_to_encode := 0
    converted_count := 0
    skipped_count := 0
    error_count := 0
    encoding_progress_done := 0 }

/-! ## Concrete states used by witnesses and counterexamples -/

/-- A job whose sizes are both known but whose source size is zero. -/
def zeroSourceJob : EncodingJob :=
  { path := "z.mkv"
    status := .Done
    output_path := some "z.av1.mkv"
    crf := none
    source_size := some 0
    output_size := some 3
    source_deleted := false
    source_kept_vmaf := none }

/-- A job carrying a negative stored encoding progress, a value the f32
field of the source permits. -/
def negProgressJob : EncodingJob :=
  { path := "v.mkv"
    status := .Encoding (-50)
    output_path := none
    crf := none
    source_size := none
    output_size := none
    source_deleted := false
    source_kept_vmaf := none }

/-- A queue whose only job stores a negative encoding progress. -/
def negProgressState : QueueState :=
  { jobs := [negProgressJob]
    current_job_index := 0
    config_job_index := 0
    start_time := none
    end_time := none
    total_jobs_to_encode := 1
    converted_count := 0
    skipped_count := 0
    error_count := 0
    encoding_progress_done := 0 }

/-- A job halfway through encoding. -/
def halfDoneJob : EncodingJob :=
  { path := "h.mkv"
    status := .Encoding 50
    output_path := none
    crf := none
    source_size := none
    output_size := none
    source_deleted := false
    source_kept_vmaf := none }

/-- A queue halfway through its single job, with known timing. -/
def halfDoneState : QueueState :=
  { jobs := [halfDoneJob]
    current_job_index := 0
    config_job_index := 0
    start_time := some 0
    end_time := some 10
    total_jobs_to_encode := 1
    converted_count := 0
    skipped_count := 0
    error_count := 0
    encoding_progress_done := 0 }

/-! ## Claim theorems -/

/-- C10: for a QueueState whose job list is empty, all_completed returns
true, so a consumer polling before any jobs are added observes the
run-finished condition. -/
theorem all_completed_empty (s : QueueState) (h : s.jobs = []) :
    all_completed s = true := by
  simp [all_completed, h]

/-- Witness for C10: the freshly constructed queue has no jobs and
all_completed holds on it. -/
theorem all_completed_empty_witness : all_completed QueueState.new = true :=
  all_completed_empty QueueState.new rfl

/-- Counterexample for C5: a job with both sizes known but a zero source
size, on which size_reduction still returns none — refuting the claim
that none is returned exactly when a size is unknown. -/
theorem size_reduction_zero_source_counterexample :
    zeroSourceJob.source_size.isSome = true ∧
    zeroSourceJob.output_size.isSome = true ∧
    size_reduction zeroSourceJob = none := by
  decide

/-- C5 (amended): size_reduction returns none exactly when either size is
unknown or the known source size is zero; otherwise it returns the
saturating difference source - min source output together with the saved
percentage. -/
theorem size_reduction_spec (j : EncodingJob) :
    (size_reduction j = none ↔
       j.source_size = none ∨ j.output_size = none ∨ j.source_size = some 0) ∧
    (∀ source output, j.source_size = some source → j.output_size = some output →
       0 < source →
       size_reduction j = some (source - min source output,
         ((source - min source output : ℕ) : ℚ) / (source : ℚ) * 100)) := by
  constructor
  · rcases hs : j.source_size with _ | source
    · simp [size_reduction, hs]
    · rcases ho : j.output_size with _ | output
      · simp [size_reduction, hs, ho]
      · simp only [size_reduction, hs, ho]
        by_cases hpos : 0 < source
        · rw [if_pos hpos]
          constructor
          · intro h; exact Option.noConfusion h
          · rintro (h | h | h)
            · exact Option.noConfusion h
            · exact Option.noConfusion h
            · exact absurd (Option.some.inj h) (by omega)
        · rw [if_neg hpos]
          have hz : source = 0 := by omega
          subst hz
          simp
  · intro source output hs ho hpos
    have hmin : source - output = source - min source output := by omega
    simp only [size_reduction, hs, ho, if_pos hpos, hmin]

/-- Witness for C5 (amended): a job with source 1000 and output 400
yields 600 bytes saved and 60 percent. -/
theorem size_reduction_spec_witness :
    size_reduction { zeroSourceJob with
        source_size := some 1000, output_size := some 400 } =
      some (1000 - min 1000 400, ((1000 - min 1000 400 : ℕ) : ℚ) / (1000 : ℚ) * 100) :=
  (size_reduction_spec _).2 1000 400 rfl rfl (by decide)

lemma completedCount_negProgressState : completedCount negProgressState = 0 := rfl

lemma currentJobProgress_negProgressState :
    currentJobProgress negProgressState = -50 := rfl

lemma overall_progress_negProgressState :
    overall_progress negProgressState = -50 := by
  simp only [overall_progress, completedCount_negProgressState,
    currentJobProgress_negProgressState,
    show negProgressState.total_jobs_to_encode = 1 from rfl]
  norm_num

lemma completedCount_halfDoneState : completedCount halfDoneState = 0 := rfl

lemma currentJobProgress_halfDoneState :
    currentJobProgress halfDoneState = 50 := rfl

lemma overall_progress_halfDoneState :
    overall_progress halfDoneState = 50 := by
  simp only [overall_progress, completedCount_halfDoneState,
    currentJobProgress_halfDoneState,
    show halfDoneState.total_jobs_to_encode = 1 from rfl]
  norm_num

lemma elapsed_time_halfDoneState : elapsed_time halfDoneState 0 = some 10 := by
  simp only [elapsed_time, show halfDoneState.start_time = some 0 from rfl,
    show halfDoneState.end_time = some 10 from rfl, Option.map_some]
  norm_num

/-- Counterexample for C3: on a queue whose single active job stores a
negative encoding progress, overall_progress is negative, refuting the
unconditional claim that the result always lies in the interval from 0
to 100. -/
theorem overall_progress_negative_counterexample :
    overall_progress negProgressState < 0 := by
  rw [overall_progress_negProgressState]
  norm_num

/-- C3 (amended): overall_progress returns 0 when no jobs were submitted,
otherwise the clamped average of completed jobs and the active progress;
skipped and errored jobs never count as completed; the result is always
at most 100, and it is non-negative whenever the stored progress of the
indexed job is non-negative. -/
theorem overall_progress_spec (s : QueueState) :
    (s.total_jobs_to_encode = 0 → overall_progress s = 0) ∧
    (s.total_jobs_to_encode ≠ 0 →
       overall_progress s =
         min (((completedCount s : ℚ) * 100 + currentJobProgress s)
               / (s.total_jobs_to_encode : ℚ)) 100) ∧
    (∀ r, isCompletedDone (JobStatus.Skipped r) = false) ∧
    (∀ m, isCompletedDone (JobStatus.Error m) = false) ∧
    overall_progress s ≤ 100 ∧
    (0 ≤ currentJobProgress s → 0 ≤ overall_progress s) := by
  refine ⟨fun h => by simp [overall_progress, h],
          fun h => by simp [overall_progress, h],
          fun r => rfl, fun m => rfl, ?_, ?_⟩
  · unfold overall_progress
    split
    · norm_num
    · exact min_le_right _ _
  · intro hcur
    unfold overall_progress
    split
    · exact le_refl 0
    · refine le_min ?_ (by norm_num)
      apply div_nonneg
      · have hc : (0 : ℚ) ≤ (completedCount s : ℚ) := Nat.cast_nonneg _
        nlinarith
      · exact Nat.cast_nonneg _

/-- Witness for C3 (amended): the half-done single-job queue has
non-negative stored progress and non-negative overall progress. -/
theorem overall_progress_spec_witness :
    halfDoneState.total_jobs_to_encode ≠ 0 ∧
    overall_progress halfDoneState =
      min (((completedCount halfDoneState : ℚ) * 100 + currentJobProgress halfDoneState)
            / (halfDoneState.total_jobs_to_encode : ℚ)) 100 ∧
    (0 : ℚ) ≤ overall_progress halfDoneState :=
  ⟨by decide, (overall_progress_spec halfDoneState).2.1 (by decide),
   (overall_progress_spec halfDoneState).2.2.2.2.2
     (by rw [currentJobProgress_halfDoneState]; norm_num)⟩

lemma etr_none (s : QueueState) (now : ℚ)
    (h : overall_progress s ≤ 0 ∨ 100 ≤ overall_progress s ∨
      elapsed_time s now = none) :
    estimated_time_remaining s now = none := by
  unfold estimated_time_remaining
  rcases h with h | h | h
  · simp [h]
  · simp [h]
  · simp only [h]
    split <;> rfl

lemma etr_some (s : QueueState) (now elapsed : ℚ)
    (h0 : 0 < overall_progress s) (h100 : overall_progress s < 100)
    (helapsed : elapsed_time s now = some elapsed) :
    estimated_time_remaining s now =
      if 0 < elapsed / (overall_progress s / 100) - elapsed
      then some (elapsed / (overall_progress s / 100) - elapsed) else none := by
  unfold estimated_time_remaining
  rw [if_neg (by push_neg; exact ⟨h0, h100⟩), helapsed]

lemma etr_pos (s : QueueState) (now r : ℚ)
    (h : estimated_time_remaining s now = some r) : 0 < r := by
  rcases le_or_lt (overall_progress s) 0 with hp0 | hp0
  · rw [etr_none s now (Or.inl hp0)] at h
    exact Option.noConfusion h
  rcases le_or_lt 100 (overall_progress s) with hp100 | hp100
  · rw [etr_none s now (Or.inr (Or.inl hp100))] at h
    exact Option.noConfusion h
  rcases helapsed : elapsed_time s now with _ | elapsed
  · rw [etr_none s now (Or.inr (Or.inr helapsed))] at h
    exact Option.noConfusion h
  · rw [etr_some s now elapsed hp0 hp100 helapsed] at h
    split_ifs at h with hpos
    rw [← Option.some.inj h]
    exact hpos

/-- C4: estimated_time_remaining is absent when progress is at most 0, at
least 100, or elapsed time is unknown; otherwise it is the linear
extrapolation elapsed / (progress/100) - elapsed, suppressed when
non-positive; every value it does return is strictly positive. -/
theorem estimated_time_remaining_spec (s : QueueState) (now : ℚ) :
    ((overall_progress s ≤ 0 ∨ 100 ≤ overall_progress s ∨
        elapsed_time s now = none) →
       estimated_time_remaining s now = none) ∧
    (∀ elapsed, 0 < overall_progress s → overall_progress s < 100 →
       elapsed_time s now = some elapsed →
       estimated_time_remaining s now =
         if 0 < elapsed / (overall_progress s / 100) - elapsed
         then some (elapsed / (overall_progress s / 100) - elapsed) else none) ∧
    (∀ r, estimated_time_remaining s now = some r → 0 < r) :=
  ⟨etr_none s now, fun elapsed => etr_some s now elapsed, etr_pos s now⟩

lemma etr_halfDoneState_eq : estimated_time_remaining halfDoneState 0 = some 10 := by
  rw [etr_some halfDoneState 0 10
        (by rw [overall_progress_halfDoneState]; norm_num)
        (by rw [overall_progress_halfDoneState]; norm_num)
        elapsed_time_halfDoneState,
      overall_progress_halfDoneState]
  norm_num

/-- Witness for C4: the negative-progress queue yields no estimate; the
half-done queue yields the extrapolated estimate; a returned value is
positive. -/
theorem estimated_time_remaining_spec_witness :
    estimated_time_remaining negProgressState 0 = none ∧
    estimated_time_remaining halfDoneState 0 =
      (if 0 < 10 / (overall_progress halfDoneState / 100) - 10
       then some (10 / (overall_progress halfDoneState / 100) - 10) else none) ∧
    (0 : ℚ) < 10 :=
  ⟨(estimated_time_remaining_spec negProgressState 0).1
     (Or.inl (by rw [overall_progress_negProgressState]; norm_num)),
   (estimated_time_remaining_spec halfDoneState 0).2.1 10
     (by rw [overall_progress_halfDoneState]; norm_num)
     (by rw [overall_progress_halfDoneState]; norm_num)
     elapsed_time_halfDoneState,
   (estimated_time_remaining_spec halfDoneState 0).2.2 10 etr_halfDoneState_eq⟩

/-! ## Concrete worker and pipeline scenarios -/

/-- A job whose caller opted into source deletion. -/
def delJob : WorkerJob :=
  { index := 0, input := "a.mkv", output := "a.av1.mkv", delete_source := true }

/-- A pipeline outcome with a VMAF score above the deletion threshold. -/
def highVmafEnv : JobEnv :=
  { cancelBefore := false
    result := .SuccessWithVmaf ⟨95, 90, 99⟩
    progressEvents := [] }

/-- A pipeline outcome with a VMAF score below the deletion threshold,
below the warning threshold 85. -/
def lowVmafEnv : JobEnv :=
  { cancelBefore := false
    result := .QualityWarning ⟨72, 60, 80⟩ 85
    progressEvents := [] }

/-- The cancel flag observed before the job starts. -/
def cancelledBeforeEnv : JobEnv :=
  { cancelBefore := true
    result := .Success
    progressEvents := [] }

/-- A pipeline run that was cancelled mid-encode. -/
def cancelledDuringEnv : JobEnv :=
  { cancelBefore := false
    result := .Cancelled
    progressEvents := [30] }

/-! ## Worker claim theorems -/

lemma try_delete_source_cases (i : Nat) (src : String) (score : ℚ)
    (fs : Finset String) (hin : src ∈ fs) :
    try_delete_source i src score fs =
        ([WorkerMessage.SourceDeleted i], fs.erase src) ∨
    try_delete_source i src score fs =
        ([WorkerMessage.SourceKeptLowVmaf i score], fs) := by
  unfold try_delete_source
  by_cases h : DELETE_VMAF_THRESHOLD ≤ score
  · left; rw [if_pos h, if_pos hin]
  · right; rw [if_neg h]

/-- C1: with source deletion requested and a score-carrying outcome, the
worker deletes the source exactly when the score reaches the fixed
threshold 90; below 90 the source stays and a SourceKeptLowVmaf message
with that score is sent instead. -/
theorem worker_delete_source_policy (job : WorkerJob) (env : JobEnv)
    (fs : Finset String) (v : VmafResult) (t : ℚ)
    (hdel : job.delete_source = true) (hin : job.input ∈ fs)
    (hres : env.result = FullEncodeResult.SuccessWithVmaf v ∨
      env.result = FullEncodeResult.QualityWarning v t) :
    DELETE_VMAF_THRESHOLD = 90 ∧
    (DELETE_VMAF_THRESHOLD ≤ v.score →
       job.input ∉ (processJob job env fs).2 ∧
       WorkerMessage.SourceDeleted job.index ∈ (processJob job env fs).1) ∧
    (v.score < DELETE_VMAF_THRESHOLD →
       (processJob job env fs).2 = fs ∧
       WorkerMessage.SourceKeptLowVmaf job.index v.score ∈ (processJob job env fs).1 ∧
       WorkerMessage.SourceDeleted job.index ∉ (processJob job env fs).1) := by
  refine ⟨rfl, ?_, ?_⟩
  · intro hscore
    rcases hres with h | h <;>
      simp only [processJob, h, hdel, if_true, try_delete_source,
        if_pos hscore, if_pos hin] <;>
      exact ⟨Finset.not_mem_erase _ _, by simp⟩
  · intro hscore
    have hnot : ¬ DELETE_VMAF_THRESHOLD ≤ v.score := not_le.mpr hscore
    rcases hres with h | h <;>
      simp only [processJob, h, hdel, if_true, try_delete_source, if_neg hnot] <;>
      exact ⟨by simp, by simp, by simp⟩

/-- Witness for C1: with the source present, a score of 95 deletes it and
a score of 72 keeps it with a SourceKeptLowVmaf message. -/
theorem worker_delete_source_policy_witness :
    (delJob.input ∉ (processJob delJob highVmafEnv {"a.mkv"}).2 ∧
      WorkerMessage.SourceDeleted delJob.index ∈
        (processJob delJob highVmafEnv {"a.mkv"}).1) ∧
    ((processJob delJob lowVmafEnv {"a.mkv"}).2 = {"a.mkv"} ∧
      WorkerMessage.SourceKeptLowVmaf delJob.index 72 ∈
        (processJob delJob lowVmafEnv {"a.mkv"}).1 ∧
      WorkerMessage.SourceDeleted delJob.index ∉
        (processJob delJob lowVmafEnv {"a.mkv"}).1) :=
  ⟨(worker_delete_source_policy delJob highVmafEnv {"a.mkv"} ⟨95, 90, 99⟩ 0
      rfl (by decide) (Or.inl rfl)).2.1 (by decide),
   (worker_delete_source_policy delJob lowVmafEnv {"a.mkv"} ⟨72, 60, 80⟩ 85
      rfl (by decide) (Or.inr rfl)).2.2 (by decide)⟩

/-- Counterexample for C6: a job whose source file is already absent when
deletion is attempted receives both a DoneWithVmaf message and an Error
message, two terminal-variant messages for the same job in one real run
of the worker. -/
theorem worker_two_terminal_counterexample :
    ((run_worker [(delJob, highVmafEnv)] ∅).1.countP
        fun m => isTerminalVariant m && (messageIndex m == some 0)) = 2 := by
  decide

lemma run_worker_cons (job : WorkerJob) (env : JobEnv)
    (rest : List (WorkerJob × JobEnv)) (fs : Finset String) :
    run_worker ((job, env) :: rest) fs =
      if env.cancelBefore then ([WorkerMessage.Cancelled], fs)
      else
        match env.result with
        | FullEncodeResult.Cancelled => processJob job env fs
        | _ =>
            ((processJob job env fs).1 ++ (run_worker rest (processJob job env fs).2).1,
              (run_worker rest (processJob job env fs).2).2) := rfl

lemma countP_terminal_progressMsgs (i : Nat) (l : List ℚ) :
    ((WorkerMessage.Progress i 0 :: l.map (WorkerMessage.Progress i)).countP
      fun m => isTerminalVariant m) = 0 := by
  refine List.countP_eq_zero.mpr ?_
  intro a ha
  simp only [List.mem_cons, List.mem_map] at ha
  rcases ha with rfl | ⟨v, _, rfl⟩ <;> simp [isTerminalVariant]

lemma countP_segment (i : Nat) (l : List ℚ) (t : WorkerMessage)
    (notifs : List WorkerMessage) (ht : isTerminalVariant t = true)
    (hn : ∀ n ∈ notifs, isNotification n = true) :
    (((WorkerMessage.Progress i 0 :: l.map (WorkerMessage.Progress i))
        ++ t :: notifs).countP fun m => isTerminalVariant m) = 1 := by
  rw [List.countP_append, countP_terminal_progressMsgs]
  have hnotifs : (notifs.countP fun m => isTerminalVariant m) = 0 := by
    refine List.countP_eq_zero.mpr ?_
    intro n hmem
    have hn2 := hn n hmem
    cases n <;> simp_all [isNotification, isTerminalVariant]
  rw [List.countP_cons, hnotifs, ht]
  simp

/-- C6 (amended): provided the source file is present when deletion is
attempted, every processed job yields an initial Progress 0 message, the
re-emitted pipeline progress, then exactly one terminal-variant message
followed by at most one out-of-band notification, and the worker moves to
the next job only after the whole segment. -/
theorem worker_one_terminal_per_job (job : WorkerJob) (env : JobEnv)
    (rest : List (WorkerJob × JobEnv)) (fs : Finset String)
    (hin : job.input ∈ fs) :
    (∃ t notifs,
       (processJob job env fs).1 =
         (WorkerMessage.Progress job.index 0
            :: env.progressEvents.map (WorkerMessage.Progress job.index))
           ++ t :: notifs ∧
       isTerminalVariant t = true ∧
       notifs.length ≤ 1 ∧
       (∀ n ∈ notifs, isNotification n = true) ∧
       ((processJob job env fs).1.countP fun m => isTerminalVariant m) = 1) ∧
    (env.cancelBefore = false → env.result ≠ FullEncodeResult.Cancelled →
       (run_worker ((job, env) :: rest) fs).1 =
         (processJob job env fs).1 ++ (run_worker rest (processJob job env fs).2).1) := by
  constructor
  · rcases hres : env.result with _ | v | _ | e | ⟨v, t⟩
    · refine ⟨WorkerMessage.Done job.index, [], ?_, rfl, by norm_num, by simp, ?_⟩
      · simp [processJob, hres]
      · simp only [processJob, hres]
        exact countP_segment _ _ _ _ rfl (by simp)
    · by_cases hdel : job.delete_source = true
      · rcases try_delete_source_cases job.index job.input v.score fs hin with hd | hd
        · refine ⟨WorkerMessage.DoneWithVmaf job.index v.score,
            [WorkerMessage.SourceDeleted job.index], ?_, rfl, by norm_num, by simp [isNotification], ?_⟩
          · simp [processJob, hres, hdel, hd]
          · simp only [processJob, hres, hdel, if_true, hd]
            exact countP_segment _ _ _ _ rfl (by simp [isNotification])
        · refine ⟨WorkerMessage.DoneWithVmaf job.index v.score,
            [WorkerMessage.SourceKeptLowVmaf job.index v.score], ?_, rfl, by norm_num,
            by simp [isNotification], ?_⟩
          · simp [processJob, hres, hdel, hd]
          · simp only [processJob, hres, hdel, if_true, hd]
            exact countP_segment _ _ _ _ rfl (by simp [isNotification])
      · have hdel2 : job.delete_source = false := by
          cases h : job.delete_source
          · rfl
          · exact absurd h hdel
        refine ⟨WorkerMessage.DoneWithVmaf job.index v.score, [], ?_, rfl, by norm_num,
          by simp, ?_⟩
        · simp [processJob, hres, hdel2]
        · simp only [processJob, hres, hdel2]
          exact countP_segment _ _ _ _ rfl (by simp)
    · refine ⟨WorkerMessage.Cancelled, [], ?_, rfl, by norm_num, by simp, ?_⟩
      · simp [processJob, hres]
      · simp only [processJob, hres]
        exact countP_segment _ _ _ _ rfl (by simp)
    · refine ⟨WorkerMessage.Error job.index e, [], ?_, rfl, by norm_num, by simp, ?_⟩
      · simp [processJob, hres]
      · simp only [processJob, hres]
        exact countP_segment _ _ _ _ rfl (by simp)
    · by_cases hdel : job.delete_source = true
      · rcases try_delete_source_cases job.index job.input v.score fs hin with hd | hd
        · refine ⟨WorkerMessage.QualityWarning job.index v.score t,
            [WorkerMessage.SourceDeleted job.index], ?_, rfl, by norm_num,
            by simp [isNotification], ?_⟩
          · simp [processJob, hres, hdel, hd]
          · simp only [processJob, hres, hdel, if_true, hd]
            exact countP_segment _ _ _ _ rfl (by simp [isNotification])
        · refine ⟨WorkerMessage.QualityWarning job.index v.score t,
            [WorkerMessage.SourceKeptLowVmaf job.index v.score], ?_, rfl, by norm_num,
            by simp [isNotification], ?_⟩
          · simp [processJob, hres, hdel, hd]
          · simp only [processJob, hres, hdel, if_true, hd]
            exact countP_segment _ _ _ _ rfl (by simp [isNotification])
      · have hdel2 : job.delete_source = false := by
          cases h : job.delete_source
          · rfl
          · exact absurd h hdel
        refine ⟨WorkerMessage.QualityWarning job.index v.score t, [], ?_, rfl, by norm_num,
          by simp, ?_⟩
        · simp [processJob, hres, hdel2]
        · simp only [processJob, hres, hdel2]
          exact countP_segment _ _ _ _ rfl (by simp)
  · intro hcb hres
    rw [run_worker_cons, if_neg (by simp [hcb])]
    rcases henv : env.result with _ | v | _ | e | ⟨v, t⟩
    · rfl
    · rfl
    · exact absurd henv hres
    · rfl
    · rfl

/-- Witness for C6 (amended): with the source present, the high-score run
has exactly one terminal message and the worker appends the next jobs
after the segment. -/
theorem worker_one_terminal_per_job_witness :
    ((processJob delJob highVmafEnv {"a.mkv"}).1.countP
        fun m => isTerminalVariant m) = 1 ∧
    (run_worker [(delJob, highVmafEnv)] {"a.mkv"}).1 =
      (processJob delJob highVmafEnv {"a.mkv"}).1 ++
        (run_worker [] (processJob delJob highVmafEnv {"a.mkv"}).2).1 := by
  have h := worker_one_terminal_per_job delJob highVmafEnv [] {"a.mkv"} (by decide)
  rcases h with ⟨⟨t, notifs, _, _, _, _, hcount⟩, hseq⟩
  exact ⟨hcount, hseq rfl (by decide)⟩

/-- C7: a cancel flag observed before a job yields a bare Cancelled
message and stops the worker with no message for the remaining jobs; a
Cancelled pipeline outcome likewise ends the run right after the current
job with a Cancelled message last. -/
theorem worker_cancellation_spec (job : WorkerJob) (env : JobEnv)
    (rest : List (WorkerJob × JobEnv)) (fs : Finset String) :
    (env.cancelBefore = true →
       run_worker ((job, env) :: rest) fs = ([WorkerMessage.Cancelled], fs)) ∧
    (env.cancelBefore = false → env.result = FullEncodeResult.Cancelled →
       run_worker ((job, env) :: rest) fs = processJob job env fs ∧
       (processJob job env fs).1 =
         (WorkerMessage.Progress job.index 0
            :: env.progressEvents.map (WorkerMessage.Progress job.index))
           ++ [WorkerMessage.Cancelled]) := by
  constructor
  · intro h
    rw [run_worker_cons, if_pos h]
  · intro hcb hres
    constructor
    · rw [run_worker_cons, if_neg (by simp [hcb]), hres]
    · simp [processJob, hres]

/-- Witness for C7: one-job runs exercising both stopping modes. -/
theorem worker_cancellation_spec_witness :
    run_worker [(delJob, cancelledBeforeEnv)] {"a.mkv"} =
      ([WorkerMessage.Cancelled], {"a.mkv"}) ∧
    run_worker [(delJob, cancelledDuringEnv)] {"a.mkv"} =
      processJob delJob cancelledDuringEnv {"a.mkv"} :=
  ⟨(worker_cancellation_spec delJob cancelledBeforeEnv [] {"a.mkv"}).1 rfl,
   ((worker_cancellation_spec delJob cancelledDuringEnv [] {"a.mkv"}).2 rfl rfl).1⟩

/-- Counterexample for C9: the Cancelled progress-channel message is a
terminal-outcome report yet carries no job index. -/
theorem cancelled_message_no_index_counterexample :
    reportsStageProgressOrOutcome WorkerMessage.Cancelled = true ∧
    isTerminalVariant WorkerMessage.Cancelled = true ∧
    messageIndex WorkerMessage.Cancelled = none :=
  ⟨rfl, rfl, rfl⟩

/-- C9 (amended): every progress-channel message that reports stage
progress or a terminal outcome carries the index of the job it concerns,
except the cancelled variant, which carries no index at all. -/
theorem message_index_spec (m : WorkerMessage) :
    (reportsStageProgressOrOutcome m = true → m ≠ WorkerMessage.Cancelled →
       (messageIndex m).isSome = true) ∧
    messageIndex WorkerMessage.Cancelled = none := by
  constructor
  · intro h1 h2
    cases m <;> simp_all [messageIndex, reportsStageProgressOrOutcome]
  · rfl

/-- Witness for C9 (amended): the Done message for job 0 carries an
index. -/
theorem message_index_spec_witness :
    (messageIndex (WorkerMessage.Done 0)).isSome = true :=
  (message_index_spec (WorkerMessage.Done 0)).1 rfl (by decide)

/-! ## Pipeline claim theorems -/

/-- Whether the CRF-search stage ends the pipeline with Cancelled: the
search ran, failed, and the cancel flag was set when checked. -/
def searchCancelled (env : PipelineEnv) : Bool :=
  env.ab_av1_available &&
    (match env.search with
     | .error _ => env.cancelAfterSearch
     | .ok _ => false)

lemma run_vmaf_check_no_error (threshold : Option ℚ)
    (verify : Except String VmafResult) (e : String) :
    run_vmaf_check threshold verify ≠ FullEncodeResult.Error e := by
  unfold run_vmaf_check
  rcases threshold with _ | t
  · simp
  · cases verify with
    | error msg => simp
    | ok vmaf =>
        by_cases hm : meets_threshold vmaf t = true <;> simp [hm]

lemma run_vmaf_check_error_is_success (threshold : Option ℚ) (msg : String) :
    run_vmaf_check threshold (Except.error msg) = FullEncodeResult.Success := by
  unfold run_vmaf_check
  rcases threshold with _ | t <;> rfl

lemma pipeline_after_search (config : QualityConfig) (env : PipelineEnv)
    (h : searchCancelled env = false) :
    run_encoding_pipeline config env =
      match env.encodeOutcome with
      | .Success =>
          run_vmaf_check
            (if config.vmaf_enabled then some config.vmaf_threshold else none)
            env.verifyOutcome
      | .Cancelled => .Cancelled
      | .Error e => .Error e := by
  unfold run_encoding_pipeline
  unfold searchCancelled at h
  cases hab : env.ab_av1_available
  · simp only [hab, Bool.false_eq_true, if_false]
  · rw [hab] at h
    cases hsearch : env.search with
    | error msg =>
        rw [hsearch] at h
        cases hc : env.cancelAfterSearch
        · simp only [hab, hsearch, hc, if_true, Bool.false_eq_true, if_false]
        · rw [hc] at h
          simp at h
    | ok r => simp only [hab, hsearch, if_true]

lemma pipeline_search_cancelled (config : QualityConfig) (env : PipelineEnv)
    (h : searchCancelled env = true) :
    run_encoding_pipeline config env = FullEncodeResult.Cancelled := by
  unfold run_encoding_pipeline
  unfold searchCancelled at h
  cases hab : env.ab_av1_available
  · rw [hab] at h
    simp at h
  · rw [hab] at h
    cases hsearch : env.search with
    | error msg =>
        rw [hsearch] at h
        cases hc : env.cancelAfterSearch
        · rw [hc] at h
          simp at h
        · simp only [hab, hsearch, hc, if_true]
    | ok r =>
        rw [hsearch] at h
        simp at h

/-- C8: a search failure with the cancel flag clear is absorbed (the
pipeline behaves as if the search tool were unavailable); a verification
failure yields a plain Success; an Error outcome arises only from an
encode-stage Error; a search failure with the cancel flag set yields
Cancelled. -/
theorem pipeline_failure_policy (config : QualityConfig) (env : PipelineEnv) :
    (∀ e, run_encoding_pipeline config env = FullEncodeResult.Error e →
       env.encodeOutcome = EncodeResult.Error e) ∧
    (∀ msg, env.search = Except.error msg → env.cancelAfterSearch = false →
       run_encoding_pipeline config env =
         run_encoding_pipeline config { env with ab_av1_available := false }) ∧
    (∀ msg, searchCancelled env = false →
       env.encodeOutcome = EncodeResult.Success →
       env.verifyOutcome = Except.error msg →
       run_encoding_pipeline config env = FullEncodeResult.Success) ∧
    (∀ msg, env.ab_av1_available = true → env.search = Except.error msg →
       env.cancelAfterSearch = true →
       run_encoding_pipeline config env = FullEncodeResult.Cancelled) := by
  refine ⟨?_, ?_, ?_, ?_⟩
  · intro e h
    cases hsc : searchCancelled env
    · rw [pipeline_after_search config env hsc] at h
      cases henc : env.encodeOutcome <;> rw [henc] at h
      · exact absurd h (run_vmaf_check_no_error _ _ _)
      · exact absurd h (by simp)
      · rename_i msg
        have h3 : FullEncodeResult.Error msg = FullEncodeResult.Error e := h
        injection h3 with h4
        rw [h4]
    · rw [pipeline_search_cancelled config env hsc] at h
      exact absurd h (by simp)
  · intro msg hsearch hc
    have h1 : searchCancelled env = false := by
      unfold searchCancelled
      rw [hsearch, hc]
      simp
    have h2 : searchCancelled { env with ab_av1_available := false } = false := by
      unfold searchCancelled
      simp
    rw [pipeline_after_search config env h1,
        pipeline_after_search config { env with ab_av1_available := false } h2]
  · intro msg hsc henc hverify
    rw [pipeline_after_search config env hsc, henc, hverify]
    exact run_vmaf_check_error_is_success _ _
  · intro msg hab hsearch hc
    refine pipeline_search_cancelled config env ?_
    unfold searchCancelled
    rw [hab, hsearch, hc]
    rfl

/-- The quality configuration used by the concrete pipeline scenarios. -/
def witnessConfig : QualityConfig := { vmaf_enabled := true, vmaf_threshold := 93 }

/-- Search failed, cancel flag clear, encode fine, verification crashed. -/
def searchFailEnv : PipelineEnv :=
  { ab_av1_available := true
    search := .error "ab-av1 failed"
    cancelAfterSearch := false
    encodeOutcome := .Success
    verifyOutcome := .error "vmaf crashed" }

/-- Search failed while the cancel flag was set. -/
def searchFailCancelledEnv : PipelineEnv :=
  { ab_av1_available := true
    search := .error "ab-av1 failed"
    cancelAfterSearch := true
    encodeOutcome := .Success
    verifyOutcome := .error "vmaf crashed" }

/-- The encode stage itself failed. -/
def encodeFailEnv : PipelineEnv :=
  { ab_av1_available := false
    search := .error "not run"
    cancelAfterSearch := false
    encodeOutcome := .Error "ffmpeg failed"
    verifyOutcome := .error "not run" }

/-- Witness for C8: the four policy clauses at concrete scenarios. -/
theorem pipeline_failure_policy_witness :
    encodeFailEnv.encodeOutcome = EncodeResult.Error "ffmpeg failed" ∧
    run_encoding_pipeline witnessConfig searchFailEnv =
      run_encoding_pipeline witnessConfig
        { searchFailEnv with ab_av1_available := false } ∧
    run_encoding_pipeline witnessConfig searchFailEnv = FullEncodeResult.Success ∧
    run_encoding_pipeline witnessConfig searchFailCancelledEnv =
      FullEncodeResult.Cancelled :=
  ⟨(pipeline_failure_policy witnessConfig encodeFailEnv).1 "ffmpeg failed" rfl,
   (pipeline_failure_policy witnessConfig searchFailEnv).2.1 "ab-av1 failed" rfl rfl,
   (pipeline_failure_policy witnessConfig searchFailEnv).2.2.1 "vmaf crashed"
     rfl rfl rfl,
   (pipeline_failure_policy witnessConfig searchFailCancelledEnv).2.2.2
     "ab-av1 failed" rfl rfl rfl⟩

/-! ## Encode-loop claim theorems -/

lemma loop_cancel_fs :
    ∀ (iters : List EncodeIter) (duration : ℚ) (output : String)
      (fs : Finset String) (acc : List ℚ) (res : EncodeResult)
      (fs2 : Finset String) (prog : List ℚ),
      run_encode_loop iters duration output fs acc = some (res, fs2, prog) →
      res = EncodeResult.Cancelled → fs2 = fs.erase output := by
  intro iters
  induction iters with
  | nil =>
      intro duration output fs acc res fs2 prog h hres
      exact absurd h (by simp [run_encode_loop])
  | cons it rest ih =>
      intro duration output fs acc res fs2 prog h hres
      unfold run_encode_loop at h
      by_cases hc : it.cancelObserved = true
      · rw [if_pos hc] at h
        have h2 := Option.some.inj h
        simp only [Prod.mk.injEq] at h2
        exact h2.2.1.symm
      · rw [if_neg hc] at h
        split at h
        · have h2 := Option.some.inj h
          simp only [Prod.mk.injEq] at h2
          rw [hres] at h2
          exact absurd h2.1 (by simp)
        · have h2 := Option.some.inj h
          simp only [Prod.mk.injEq] at h2
          rw [hres] at h2
          exact absurd h2.1 (by simp)
        · have h2 := Option.some.inj h
          simp only [Prod.mk.injEq] at h2
          rw [hres] at h2
          exact absurd h2.1 (by simp)
        · exact ih duration output fs (accStep it duration acc) res fs2 prog h hres

lemma loop_reaches_cancel :
    ∀ (pre : List EncodeIter) (it : EncodeIter) (post : List EncodeIter)
      (duration : ℚ) (output : String) (fs : Finset String) (acc : List ℚ),
      (∀ p ∈ pre, p.cancelObserved = false ∧ p.child = ChildObs.running) →
      it.cancelObserved = true →
      run_encode_loop (pre ++ it :: post) duration output fs acc =
        some (EncodeResult.Cancelled, fs.erase output, loopAcc pre duration acc) := by
  intro pre
  induction pre with
  | nil =>
      intro it post duration output fs acc _ hit
      simp only [List.nil_append, run_encode_loop, hit, if_true, loopAcc]
  | cons p rest ih =>
      intro it post duration output fs acc hpre hit
      have hp := hpre p (List.mem_cons_self p rest)
      rw [List.cons_append]
      unfold run_encode_loop
      rw [if_neg (by rw [hp.1]; simp), hp.2]
      exact ih it post duration output fs (accStep p duration acc)
        (fun q hq => hpre q (List.mem_cons_of_mem p hq)) hit

/-- C2: cancellation observed in the polling loop removes the partial
output file and returns Cancelled, and whenever the loop result is
Cancelled the output file is absent from the resulting filesystem. -/
theorem encode_loop_cancellation (duration : ℚ) (output : String)
    (fs : Finset String) (acc : List ℚ) :
    (∀ iters res fs2 prog,
       run_encode_loop iters duration output fs acc = some (res, fs2, prog) →
       res = EncodeResult.Cancelled → fs2 = fs.erase output ∧ output ∉ fs2) ∧
    (∀ pre it post,
       (∀ p ∈ pre, p.cancelObserved = false ∧ p.child = ChildObs.running) →
       it.cancelObserved = true →
       run_encode_loop (pre ++ it :: post) duration output fs acc =
         some (EncodeResult.Cancelled, fs.erase output, loopAcc pre duration acc) ∧
       output ∉ fs.erase output) := by
  constructor
  · intro iters res fs2 prog h hres
    have h2 := loop_cancel_fs iters duration output fs acc res fs2 prog h hres
    refine ⟨h2, ?_⟩
    rw [h2]
    exact Finset.not_mem_erase _ _
  · intro pre it post hpre hit
    exact ⟨loop_reaches_cancel pre it post duration output fs acc hpre hit,
      Finset.not_mem_erase _ _⟩

/-- A polling iteration that sees the cancel flag. -/
def cancelIter : EncodeIter :=
  { cancelObserved := true, progressTimeUs := none, child := ChildObs.running }

/-- A polling iteration with the encoder still running and progress at
five seconds. -/
def runningIter : EncodeIter :=
  { cancelObserved := false, progressTimeUs := some 5000000, child := ChildObs.running }

/-- Witness for C2: one running iteration then a cancel observation on a
filesystem holding the partial output file. -/
theorem encode_loop_cancellation_witness :
    run_encode_loop [runningIter, cancelIter] 10 "out.mkv" {"out.mkv"} [] =
      some (EncodeResult.Cancelled, Finset.erase {"out.mkv"} "out.mkv",
        loopAcc [runningIter] 10 []) ∧
    "out.mkv" ∉ Finset.erase {"out.mkv"} "out.mkv" :=
  (encode_loop_cancellation 10 "out.mkv" {"out.mkv"} []).2 [runningIter] cancelIter []
    (by decide) rfl

end Av1Converter
